import Mathlib

/-!
Shallow embedding of the CHIP-8 interpreter core (src/wasm/chip8.cpp).

The C globals are gathered in one state record.  C byte arrays
(uint8_t screen[2048], memory[4096], V[16]) are modelled as total
functions from Nat addresses to Nat values; every store that can
overflow its C type carries an explicit mod (256 for uint8 cells,
65536 for the uint16 program counter, 4096-masking for the 12-bit
address fields).  Bit extraction (opcode and 0x0F00) >> 8 is written
with division and remainder: for a 16-bit word these coincide with the
C mask-and-shift.  The XOR in the sprite blitter is Nat.xor, written
with the ^^^ operator.
-/

def SCREEN_WIDTH : Nat := 64
def SCREEN_HEIGHT : Nat := 32

/-- Byte-addressed store: C arrays of uint8 are modelled as total maps. -/
abbrev Mem := Nat → Nat

/-- Pointwise store update, the meaning of the C assignment a[i] = v. -/
def upd (f : Mem) (a v : Nat) : Mem := fun x => if x = a then v else f x

/-- Machine state: the globals screen, memory, V, I, pc of chip8.cpp. -/
structure Chip8 where
  screen : Mem
  memory : Mem
  V : Mem
  I : Nat
  pc : Nat

/-- Translation of cls(): memset(screen, 0, 64*32). -/
def cls (s : Chip8) : Chip8 := { s with screen := fun _ => 0 }

/-- Translation of loadProgram(program, size): memcpy(memory + 0x200,
program, size); pc = 0x200.  The byte sequence is a list, size is its
length. -/
def loadProgram (s : Chip8) (program : List Nat) : Chip8 :=
  { s with
    memory := fun a =>
      if 0x200 ≤ a ∧ a < 0x200 + program.length then program.getD (a - 0x200) 0
      else s.memory a,
    pc := 0x200 }

/-- Translation of init_chip8(): cls(); memset(V, 0, 16); I = 0;
pc = 0x200.  The srand call touches no machine state. -/
def init_chip8 (s : Chip8) : Chip8 :=
  { s with screen := fun _ => 0, V := fun _ => 0, I := 0, pc := 0x200 }

/-- Inner loop body of the DXYN blitter for one column: extract the
sprite bit (spriteByte >> (7 - col)) and 1, compute the wrapped screen
coordinates, and XOR the bit into the screen cell. -/
def drawCol (x y row col spriteByte : Nat) (screen : Mem) : Mem :=
  let spritePixel := spriteByte / 2 ^ (7 - col) % 2
  let sx := (x + col) % SCREEN_WIDTH
  let sy := (y + row) % SCREEN_HEIGHT
  upd screen (sy * SCREEN_WIDTH + sx)
    (screen (sy * SCREEN_WIDTH + sx) ^^^ spritePixel)

/-- Row loop of the DXYN blitter: one sprite byte, eight columns. -/
def drawRow (x y row spriteByte : Nat) (screen : Mem) : Mem :=
  (List.range 8).foldl (fun scr col => drawCol x y row col spriteByte scr) screen

/-- Blitter of the DXYN case: for each row read memory[I + row] and
XOR its eight pixels into the screen with wraparound coordinates. -/
def drawSprite (x y height i0 : Nat) (memory : Mem) (screen : Mem) : Mem :=
  (List.range height).foldl
    (fun scr row => drawRow x y row (memory (i0 + row)) scr) screen

/-- Translation of emulateCycle(): fetch the big-endian 16-bit opcode
at pc, dispatch on the high nibble, execute, advance pc.  The C reads
memory[pc] and memory[pc+1] as uint8, hence the mod 256 on the fetched
bytes; opcode / 4096 % 16 is (opcode and 0xF000) >> 12, opcode / 256 % 16
is (opcode and 0x0F00) >> 8, opcode / 16 % 16 is (opcode and 0x00F0) >> 4,
opcode % 4096 is opcode and 0x0FFF, opcode % 256 is opcode and 0x00FF,
opcode % 16 is opcode and 0x000F.  The printf calls of the stubbed
branches touch no machine state. -/
def emulateCycle (s : Chip8) : Chip8 :=
  let opcode := s.memory s.pc % 256 * 256 + s.memory (s.pc + 1) % 256
  let nib := opcode / 4096 % 16
  if nib = 0x0 then
    if opcode = 0x00E0 then
      { cls s with pc := (s.pc + 2) % 65536 }
    else if opcode = 0x00EE then
      { s with pc := (s.pc + 2) % 65536 }
    else
      { s with pc := (s.pc + 2) % 65536 }
  else if nib = 0x1 then
    { s with pc := opcode % 4096 }
  else if nib = 0x2 then
    { s with pc := (s.pc + 2) % 65536 }
  else if nib = 0x3 then
    let x := opcode / 256 % 16
    let nn := opcode % 256
    if s.V x = nn then { s with pc := (s.pc + 4) % 65536 }
    else { s with pc := (s.pc + 2) % 65536 }
  else if nib = 0x6 then
    let x := opcode / 256 % 16
    let nn := opcode % 256
    { s with V := upd s.V x nn, pc := (s.pc + 2) % 65536 }
  else if nib = 0x7 then
    let x := opcode / 256 % 16
    let nn := opcode % 256
    { s with V := upd s.V x ((s.V x + nn) % 256), pc := (s.pc + 2) % 65536 }
  else if nib = 0xA then
    { s with I := opcode % 4096, pc := (s.pc + 2) % 65536 }
  else if nib = 0xD then
    let x := s.V (opcode / 256 % 16)
    let y := s.V (opcode / 16 % 16)
    let height := opcode % 16
    { s with screen := drawSprite x y height s.I s.memory s.screen,
             pc := (s.pc + 2) % 65536 }
  else if nib = 0xF then
    { s with pc := (s.pc + 2) % 65536 }
  else
    { s with pc := (s.pc + 2) % 65536 }

/-- Translation of runCycles(numCycles): emulateCycle iterated. -/
def runCycles (s : Chip8) (numCycles : Nat) : Chip8 :=
  match numCycles with
  | 0 => s
  | n + 1 => runCycles (emulateCycle s) n

/-- Zero state: the initial values of the zero-initialized C globals. -/
def chip8Zero : Chip8 :=
  { screen := fun _ => 0, memory := fun _ => 0, V := fun _ => 0, I := 0, pc := 0 }

/-- Single XOR-toggle of one screen cell: the meaning of the C statement
screen[i] ^= b, with the cell index and toggled bit given as a pair. -/
def xorStep (scr : Mem) (ib : Nat × Nat) : Mem :=
  upd scr ib.1 (scr ib.1 ^^^ ib.2)

/-- Sequence of XOR-toggles, left to right. -/
def applyXors (ps : List (Nat × Nat)) (scr : Mem) : Mem :=
  ps.foldl xorStep scr

/-- Accumulated XOR of all bits a toggle list commits to cell q. -/
def xorBits (ps : List (Nat × Nat)) (q : Nat) : Nat :=
  ps.foldl (fun a ib => if ib.1 = q then a ^^^ ib.2 else a) 0

/-- Toggle list produced by one sprite row: cell index and sprite bit
for each of the eight columns, as computed by the DXYN inner loop. -/
def rowPairs (x y row spriteByte : Nat) : List (Nat × Nat) :=
  (List.range 8).map (fun col =>
    ((y + row) % SCREEN_HEIGHT * SCREEN_WIDTH + (x + col) % SCREEN_WIDTH,
     spriteByte / 2 ^ (7 - col) % 2))

/-- Toggle list produced by a whole sprite draw. -/
def drawPairs (x y height i0 : Nat) (memory : Mem) : List (Nat × Nat) :=
  (List.range height).bind (fun row => rowPairs x y row (memory (i0 + row)))

/-- Freshly reset machine: the zero-initialized globals after init_chip8. -/
def freshState : Chip8 := init_chip8 chip8Zero

/-- Sample machine whose next instruction is the draw opcode 0xD012:
X = 0, Y = 1, N = 2. -/
def drawState : Chip8 :=
  { chip8Zero with
    memory := upd (upd (fun _ => 0) 0x200 0xD0) 0x201 0x12,
    pc := 0x200 }

/-- Sample machine with a nonzero register, to exercise loadProgram. -/
def c4State : Chip8 := { chip8Zero with V := upd (fun _ => 0) 0 7 }

/-- Sample machine whose next instruction word is 0x00EE. -/
def retState : Chip8 :=
  { chip8Zero with
    memory := upd (upd (fun _ => 0) 0x200 0x00) 0x201 0xEE,
    pc := 0x200 }

/-- Sample machine whose next instruction word is 0x3007 (skip-if-equal
on register 0 against 7). -/
def seState : Chip8 :=
  { chip8Zero with
    memory := upd (upd (fun _ => 0) 0x200 0x30) 0x201 0x07,
    pc := 0x200 }

/-- Sample machine whose next instruction word is 0x70FF (add 255 to
register 0). -/
def addState : Chip8 :=
  { chip8Zero with
    memory := upd (upd (fun _ => 0) 0x200 0x70) 0x201 0xFF,
    V := upd (fun _ => 0) 0 9,
    pc := 0x200 }

/-- States reachable from a reset by cycles and program loads: the
machine lifecycle of the core (init_chip8 once, then any interleaving
of loadProgram and emulateCycle). -/
inductive Reachable : Chip8 → Prop
  | start (s : Chip8) : Reachable (init_chip8 s)
  | cycle {s : Chip8} : Reachable s → Reachable (emulateCycle s)
  | load {s : Chip8} (program : List Nat) :
      Reachable s → Reachable (loadProgram s program)

/-- CLAIM C8 - reset() zeroes all registers, the index register and the
whole framebuffer and sets the program counter to 0x200, from any prior
machine state. -/
theorem init_chip8_resets (s : Chip8) :
    (∀ i, (init_chip8 s).V i = 0) ∧ (init_chip8 s).I = 0 ∧
    (∀ p, (init_chip8 s).screen p = 0) ∧ (init_chip8 s).pc = 0x200 :=
  ⟨fun _ => rfl, rfl, fun _ => rfl, rfl⟩

/-- CLAIM C10 - one emulateCycle never writes working memory: the whole
4096-byte memory map is unchanged by every instruction family. -/
theorem emulateCycle_memory_unchanged (s : Chip8) :
    (emulateCycle s).memory = s.memory := by
  unfold emulateCycle
  dsimp only
  repeat' split
  all_goals rfl

theorem upd_apply (f : Mem) (a v x : Nat) :
    upd f a v x = if x = a then v else f x := rfl

theorem xorBits_foldl (q : Nat) (ps : List (Nat × Nat)) :
    ∀ a : Nat,
      ps.foldl (fun acc ib => if ib.1 = q then acc ^^^ ib.2 else acc) a
        = a ^^^ ps.foldl (fun acc ib => if ib.1 = q then acc ^^^ ib.2 else acc) 0 := by
  induction ps with
  | nil => intro a; simp
  | cons ib t ih =>
    intro a
    simp only [List.foldl_cons]
    by_cases h : ib.1 = q
    · rw [if_pos h, if_pos h, ih (a ^^^ ib.2), ih (0 ^^^ ib.2),
        Nat.zero_xor, Nat.xor_assoc]
    · rw [if_neg h, if_neg h, ih a, ih 0, Nat.zero_xor]

theorem xorBits_cons (q : Nat) (ib : Nat × Nat) (t : List (Nat × Nat)) :
    xorBits (ib :: t) q
      = (if ib.1 = q then ib.2 else 0) ^^^ xorBits t q := by
  unfold xorBits
  simp only [List.foldl_cons]
  rw [xorBits_foldl]
  by_cases h : ib.1 = q
  · rw [if_pos h, if_pos h, Nat.zero_xor]
  · rw [if_neg h, if_neg h]

theorem applyXors_apply (ps : List (Nat × Nat)) :
    ∀ (scr : Mem) (q : Nat), applyXors ps scr q = scr q ^^^ xorBits ps q := by
  induction ps with
  | nil => intro scr q; simp [applyXors, xorBits]
  | cons ib t ih =>
    intro scr q
    simp only [applyXors, List.foldl_cons] at *
    rw [ih, xorBits_cons]
    by_cases h : q = ib.1
    · rw [if_pos (h ▸ rfl), xorStep, upd_apply, if_pos h, h, Nat.xor_assoc]
    · rw [if_neg (fun hh => h hh.symm), Nat.zero_xor, xorStep, upd_apply, if_neg h]

theorem applyXors_applyXors (ps : List (Nat × Nat)) (scr : Mem) :
    applyXors ps (applyXors ps scr) = scr := by
  funext q
  rw [applyXors_apply, applyXors_apply, Nat.xor_assoc, Nat.xor_self, Nat.xor_zero]

theorem drawRow_eq_applyXors (x y row sb : Nat) (scr : Mem) :
    drawRow x y row sb scr = applyXors (rowPairs x y row sb) scr := by
  simp only [drawRow, rowPairs, applyXors, List.foldl_map]
  rfl

theorem foldl_drawRow_eq (x y i0 : Nat) (mem : Mem) (rows : List Nat) :
    ∀ scr : Mem,
      rows.foldl (fun scr row => drawRow x y row (mem (i0 + row)) scr) scr
        = applyXors (rows.bind (fun row => rowPairs x y row (mem (i0 + row)))) scr := by
  induction rows with
  | nil => intro scr; rfl
  | cons r t ih =>
    intro scr
    simp only [List.foldl_cons, List.cons_bind]
    rw [ih, drawRow_eq_applyXors]
    simp [applyXors, List.foldl_append]

theorem drawSprite_eq_applyXors (x y h i0 : Nat) (mem scr : Mem) :
    drawSprite x y h i0 mem scr = applyXors (drawPairs x y h i0 mem) scr := by
  simp only [drawSprite, drawPairs]
  exact foldl_drawRow_eq x y i0 mem (List.range h) scr

theorem drawSprite_drawSprite (x y h i0 : Nat) (mem scr : Mem) :
    drawSprite x y h i0 mem (drawSprite x y h i0 mem scr) = scr := by
  rw [drawSprite_eq_applyXors, drawSprite_eq_applyXors, applyXors_applyXors]

theorem emulateCycle_draw (s : Chip8) (X Y N : Nat)
    (hX : X < 16) (hY : Y < 16) (hN : N < 16)
    (hHi : s.memory s.pc = 0xD0 + X)
    (hLo : s.memory (s.pc + 1) = 16 * Y + N) :
    emulateCycle s =
      { s with screen := drawSprite (s.V X) (s.V Y) N s.I s.memory s.screen,
               pc := (s.pc + 2) % 65536 } := by
  unfold emulateCycle
  dsimp only
  rw [hHi, hLo]
  have h13 : ((0xD0 + X) % 256 * 256 + (16 * Y + N) % 256) / 4096 % 16 = 13 := by
    omega
  have hx : ((0xD0 + X) % 256 * 256 + (16 * Y + N) % 256) / 256 % 16 = X := by
    omega
  have hy : ((0xD0 + X) % 256 * 256 + (16 * Y + N) % 256) / 16 % 16 = Y := by
    omega
  have hn : ((0xD0 + X) % 256 * 256 + (16 * Y + N) % 256) % 16 = N := by
    omega
  rw [h13, hx, hy, hn]
  norm_num

/-- CLAIM C1 - executing the draw instruction 0xDXYN twice in succession
with identical register values, index register and memory contents
(sprite rows readable, I + N within the 4096-byte memory) restores the
framebuffer exactly: the XOR blit is self-inverse. -/
theorem draw_twice_restores (s : Chip8) (X Y N : Nat)
    (hX : X < 16) (hY : Y < 16) (hN : N < 16)
    (hHi : s.memory s.pc = 0xD0 + X)
    (hLo : s.memory (s.pc + 1) = 16 * Y + N)
    (hRead : s.I + N ≤ 4096) :
    (emulateCycle { s with screen := (emulateCycle s).screen }).screen
      = s.screen := by
  rw [emulateCycle_draw { s with screen := (emulateCycle s).screen } X Y N hX hY hN hHi hLo,
    emulateCycle_draw s X Y N hX hY hN hHi hLo]
  exact drawSprite_drawSprite _ _ _ _ _ _

theorem draw_twice_restores_witness :
    drawState.memory drawState.pc = 0xD0 + 0 ∧
    drawState.memory (drawState.pc + 1) = 16 * 1 + 2 ∧
    drawState.I + 2 ≤ 4096 ∧
    (emulateCycle { drawState with screen := (emulateCycle drawState).screen }).screen
      = drawState.screen :=
  ⟨by decide, by decide, by decide,
    draw_twice_restores drawState 0 1 2 (by decide) (by decide) (by decide)
      (by decide) (by decide) (by decide)⟩

theorem rowPairs_70_6 (y row sb : Nat) :
    rowPairs 70 y row sb = rowPairs 6 y row sb := by
  unfold rowPairs
  have hfun :
      (fun col => ((y + row) % SCREEN_HEIGHT * SCREEN_WIDTH + (70 + col) % SCREEN_WIDTH,
        sb / 2 ^ (7 - col) % 2))
      = (fun col => ((y + row) % SCREEN_HEIGHT * SCREEN_WIDTH + (6 + col) % SCREEN_WIDTH,
        sb / 2 ^ (7 - col) % 2)) := by
    funext col
    have h64 : (70 + col) % SCREEN_WIDTH = (6 + col) % SCREEN_WIDTH := by
      simp only [SCREEN_WIDTH]
      omega
    rw [h64]
  rw [hfun]

theorem drawPairs_70_6 (y h i0 : Nat) (mem : Mem) :
    drawPairs 70 y h i0 mem = drawPairs 6 y h i0 mem := by
  unfold drawPairs
  have hfun : (fun row => rowPairs 70 y row (mem (i0 + row)))
      = (fun row => rowPairs 6 y row (mem (i0 + row))) := by
    funext row
    exact rowPairs_70_6 y row (mem (i0 + row))
  rw [hfun]

theorem drawSprite_70_6 (y h i0 : Nat) (mem scr : Mem) :
    drawSprite 70 y h i0 mem scr = drawSprite 6 y h i0 mem scr := by
  rw [drawSprite_eq_applyXors, drawSprite_eq_applyXors, drawPairs_70_6]

/-- CLAIM C2 - drawing with registers[X] = 70 produces the same
framebuffer as drawing with registers[X] = 6 while registers[Y], the
height, the index register and memory agree: sprite coordinates wrap
modulo 64 horizontally (and modulo 32 vertically). -/
theorem draw_wrap_70_eq_6 (s : Chip8) (X Y N : Nat)
    (hX : X < 16) (hY : Y < 16) (hN : N < 16) (hXY : X ≠ Y)
    (hHi : s.memory s.pc = 0xD0 + X)
    (hLo : s.memory (s.pc + 1) = 16 * Y + N) :
    (emulateCycle { s with V := upd s.V X 70 }).screen
      = (emulateCycle { s with V := upd s.V X 6 }).screen := by
  rw [emulateCycle_draw { s with V := upd s.V X 70 } X Y N hX hY hN hHi hLo,
    emulateCycle_draw { s with V := upd s.V X 6 } X Y N hX hY hN hHi hLo]
  dsimp only
  have h70 : upd s.V X 70 X = 70 := by simp [upd]
  have h6 : upd s.V X 6 X = 6 := by simp [upd]
  have hY70 : upd s.V X 70 Y = s.V Y := by simp [upd, Ne.symm hXY]
  have hY6 : upd s.V X 6 Y = s.V Y := by simp [upd, Ne.symm hXY]
  rw [h70, h6, hY70, hY6, drawSprite_70_6]

theorem draw_wrap_70_eq_6_witness :
    (0 : Nat) ≠ 1 ∧
    drawState.memory drawState.pc = 0xD0 + 0 ∧
    drawState.memory (drawState.pc + 1) = 16 * 1 + 2 ∧
    (emulateCycle { drawState with V := upd drawState.V 0 70 }).screen
      = (emulateCycle { drawState with V := upd drawState.V 0 6 }).screen :=
  ⟨by decide, by decide, by decide,
    draw_wrap_70_eq_6 drawState 0 1 2 (by decide) (by decide) (by decide)
      (by decide) (by decide) (by decide)⟩

/-- CLAIM C3 - one cycle fetching instruction word 0x00EE, 0x2123 or
0xF00A (the stubbed return, call and Fx families) leaves all registers,
the index register and the whole framebuffer unchanged and advances the
program counter by exactly 2 (the fetch stays inside the 4096-byte
memory, per the stated program-counter invariant). -/
theorem unsupported_opcodes_noop (s : Chip8)
    (hpc : s.pc + 1 < 4096)
    (h : (s.memory s.pc = 0x00 ∧ s.memory (s.pc + 1) = 0xEE)
       ∨ (s.memory s.pc = 0x21 ∧ s.memory (s.pc + 1) = 0x23)
       ∨ (s.memory s.pc = 0xF0 ∧ s.memory (s.pc + 1) = 0x0A)) :
    (emulateCycle s).V = s.V ∧ (emulateCycle s).I = s.I ∧
    (emulateCycle s).screen = s.screen ∧ (emulateCycle s).pc = s.pc + 2 := by
  rcases h with ⟨h1, h2⟩ | ⟨h1, h2⟩ | ⟨h1, h2⟩ <;>
    (unfold emulateCycle; dsimp only; rw [h1, h2]; norm_num; omega)

theorem unsupported_opcodes_noop_witness :
    retState.pc + 1 < 4096 ∧
    retState.memory retState.pc = 0x00 ∧
    retState.memory (retState.pc + 1) = 0xEE ∧
    (emulateCycle retState).pc = retState.pc + 2 :=
  ⟨by decide, by decide, by decide,
    (unsupported_opcodes_noop retState (by decide)
      (Or.inl ⟨by decide, by decide⟩)).2.2.2⟩

/-- CLAIM C5 - the skip-if-equal instruction 0x3XNN advances the program
counter by exactly 4 when registers[X] = NN and by exactly 2 otherwise,
for every byte NN including 0 and 255, and leaves registers, index
register and framebuffer unchanged (the fetch stays inside the
4096-byte memory, per the stated program-counter invariant). -/
theorem skip_if_equal (s : Chip8) (X NN : Nat)
    (hX : X < 16) (hNN : NN < 256)
    (hHi : s.memory s.pc = 0x30 + X)
    (hLo : s.memory (s.pc + 1) = NN)
    (hpc : s.pc + 1 < 4096) :
    ((s.V X = NN → (emulateCycle s).pc = s.pc + 4)
      ∧ (s.V X ≠ NN → (emulateCycle s).pc = s.pc + 2))
    ∧ (emulateCycle s).V = s.V ∧ (emulateCycle s).I = s.I
    ∧ (emulateCycle s).screen = s.screen := by
  unfold emulateCycle
  dsimp only
  rw [hHi, hLo]
  have hnib : ((0x30 + X) % 256 * 256 + NN % 256) / 4096 % 16 = 3 := by omega
  have hx : ((0x30 + X) % 256 * 256 + NN % 256) / 256 % 16 = X := by omega
  have hnn : ((0x30 + X) % 256 * 256 + NN % 256) % 256 = NN := by omega
  rw [hnib, hx, hnn]
  norm_num
  by_cases hv : s.V X = NN
  · rw [if_pos hv]
    refine ⟨⟨fun _ => ?_, fun hne => absurd hv hne⟩, rfl, rfl, rfl⟩
    exact Nat.mod_eq_of_lt (by omega)
  · rw [if_neg hv]
    refine ⟨⟨fun heq => absurd heq hv, fun _ => ?_⟩, rfl, rfl, rfl⟩
    exact Nat.mod_eq_of_lt (by omega)

theorem skip_if_equal_witness :
    (0 : Nat) < 16 ∧ (7 : Nat) < 256 ∧
    seState.memory seState.pc = 0x30 + 0 ∧
    seState.memory (seState.pc + 1) = 7 ∧
    seState.pc + 1 < 4096 ∧ seState.V 0 ≠ 7 ∧
    (emulateCycle seState).pc = seState.pc + 2 :=
  ⟨by decide, by decide, by decide, by decide, by decide, by decide,
    ((skip_if_equal seState 0 7 (by decide) (by decide) (by decide)
      (by decide) (by decide)).1.2 (by decide))⟩

/-- CLAIM C6 - the add-immediate instruction 0x7XNN stores
(registers[X] + NN) mod 256 into registers[X] with 8-bit wraparound,
writes no other register (in particular register 0xF is untouched
whenever X is not 0xF), and advances the program counter by 2 (the
fetch stays inside the 4096-byte memory, per the stated
program-counter invariant). -/
theorem add_immediate (s : Chip8) (X NN : Nat)
    (hX : X < 16) (hNN : NN < 256)
    (hHi : s.memory s.pc = 0x70 + X)
    (hLo : s.memory (s.pc + 1) = NN)
    (hpc : s.pc + 1 < 4096) :
    (emulateCycle s).V X = (s.V X + NN) % 256
    ∧ (∀ i, i ≠ X → (emulateCycle s).V i = s.V i)
    ∧ (emulateCycle s).pc = s.pc + 2 := by
  unfold emulateCycle
  dsimp only
  rw [hHi, hLo]
  have hnib : ((0x70 + X) % 256 * 256 + NN % 256) / 4096 % 16 = 7 := by omega
  have hx : ((0x70 + X) % 256 * 256 + NN % 256) / 256 % 16 = X := by omega
  have hnn : ((0x70 + X) % 256 * 256 + NN % 256) % 256 = NN := by omega
  rw [hnib, hx, hnn]
  norm_num
  refine ⟨by simp [upd], fun i hi => by simp [upd, hi], by omega⟩

theorem add_immediate_witness :
    (0 : Nat) < 16 ∧ (255 : Nat) < 256 ∧
    addState.memory addState.pc = 0x70 + 0 ∧
    addState.memory (addState.pc + 1) = 255 ∧
    addState.pc + 1 < 4096 ∧
    (emulateCycle addState).V 0 = (addState.V 0 + 255) % 256 :=
  ⟨by decide, by decide, by decide, by decide, by decide,
    (add_immediate addState 0 255 (by decide) (by decide) (by decide)
      (by decide) (by decide)).1⟩

/-- CLAIM C7 - from a freshly reset machine, loading the program
[0x60, 0x05] and running one cycle stores 5 in register 0 and leaves
the program counter at 0x202: the two program bytes are fetched
big-endian as 0x6005, the load-immediate family. -/
theorem load_run_scenario :
    (emulateCycle (loadProgram freshState [0x60, 0x05])).V 0 = 5
    ∧ (emulateCycle (loadProgram freshState [0x60, 0x05])).pc = 0x202 := by
  decide

/-- COUNTEREXAMPLE to C4 as stated: loadProgram does not re-zero the
machine state; a register holding 7 before the call still holds 7
afterwards. -/
theorem loadProgram_not_rezero : ¬ ((loadProgram c4State [0x11]).V 0 = 0) := by
  decide

/-- CLAIM C4 (amended) - loadProgram(bytes) with len(bytes) <= 3584
copies bytes into memory starting at offset 0x200, leaves every other
memory byte alone, and sets the program counter to 0x200; it does not
re-zero the machine state: registers, index register and framebuffer
keep their prior values. -/
theorem loadProgram_spec (s : Chip8) (program : List Nat)
    (hlen : program.length ≤ 3584) :
    (∀ k, k < program.length →
      (loadProgram s program).memory (0x200 + k) = program.getD k 0)
    ∧ (∀ a, a < 0x200 ∨ 0x200 + program.length ≤ a →
      (loadProgram s program).memory a = s.memory a)
    ∧ (loadProgram s program).pc = 0x200
    ∧ (loadProgram s program).V = s.V
    ∧ (loadProgram s program).I = s.I
    ∧ (loadProgram s program).screen = s.screen := by
  refine ⟨?_, ?_, rfl, rfl, rfl, rfl⟩
  · intro k hk
    show (if 0x200 ≤ 0x200 + k ∧ 0x200 + k < 0x200 + program.length
      then program.getD (0x200 + k - 0x200) 0 else s.memory (0x200 + k))
        = program.getD k 0
    rw [if_pos ⟨by omega, by omega⟩]
    have hsub : 0x200 + k - 0x200 = k := by omega
    rw [hsub]
  · intro a ha
    show (if 0x200 ≤ a ∧ a < 0x200 + program.length
      then program.getD (a - 0x200) 0 else s.memory a) = s.memory a
    rw [if_neg (by omega)]

theorem loadProgram_spec_witness :
    ([0x60, 0x05] : List Nat).length ≤ 3584 ∧
    (loadProgram c4State [0x60, 0x05]).memory (0x200 + 0) = 0x60 ∧
    (loadProgram c4State [0x60, 0x05]).V = c4State.V :=
  ⟨by decide,
    (loadProgram_spec c4State [0x60, 0x05] (by decide)).1 0 (by decide),
    (loadProgram_spec c4State [0x60, 0x05] (by decide)).2.2.2.1⟩

theorem xor_lt_two {a b : Nat} (ha : a < 2) (hb : b < 2) : a ^^^ b < 2 := by
  have ha2 : a = 0 ∨ a = 1 := by omega
  have hb2 : b = 0 ∨ b = 1 := by omega
  rcases ha2 with h1 | h1 <;> rcases hb2 with h2 | h2 <;> subst h1 <;> subst h2 <;>
    decide

theorem xorBits_lt_two (ps : List (Nat × Nat))
    (h : ∀ ib ∈ ps, ib.2 < 2) (q : Nat) : xorBits ps q < 2 := by
  induction ps with
  | nil => simp [xorBits]
  | cons ib t ih =>
    rw [xorBits_cons]
    have hib : ib.2 < 2 := h ib (List.mem_cons_self ib t)
    have ht : xorBits t q < 2 := ih (fun jb hjb => h jb (List.mem_cons_of_mem ib hjb))
    by_cases hq : ib.1 = q
    · rw [if_pos hq]; exact xor_lt_two hib ht
    · rw [if_neg hq, Nat.zero_xor]; exact ht

theorem drawPairs_snd_lt_two (x y h i0 : Nat) (mem : Mem) :
    ∀ ib ∈ drawPairs x y h i0 mem, ib.2 < 2 := by
  intro ib hib
  unfold drawPairs at hib
  rw [List.mem_bind] at hib
  obtain ⟨row, _, hib⟩ := hib
  unfold rowPairs at hib
  rw [List.mem_map] at hib
  obtain ⟨col, _, rfl⟩ := hib
  exact Nat.mod_lt _ (by norm_num)

theorem drawSprite_screen_bits (x y h i0 : Nat) (mem scr : Mem)
    (hscr : ∀ q, scr q < 2) : ∀ q, drawSprite x y h i0 mem scr q < 2 := by
  intro q
  rw [drawSprite_eq_applyXors, applyXors_apply]
  exact xor_lt_two (hscr q)
    (xorBits_lt_two _ (drawPairs_snd_lt_two x y h i0 mem) q)

theorem emulateCycle_screen_bits (s : Chip8) (hs : ∀ q, s.screen q < 2) :
    ∀ q, (emulateCycle s).screen q < 2 := by
  intro q
  unfold emulateCycle
  dsimp only
  repeat' split
  all_goals first
    | exact hs q
    | exact Nat.zero_lt_succ 1
    | exact drawSprite_screen_bits _ _ _ _ _ _ hs q

/-- CLAIM C9 - in every state reachable from a reset by cycles and
program loads, every framebuffer cell holds 0 or 1: clear-screen writes
0 and the sprite blitter XORs single bits, so the 0-or-1 property is
preserved by every operation of the core. -/
theorem reachable_screen_bits (s : Chip8) (h : Reachable s) :
    ∀ p, s.screen p = 0 ∨ s.screen p = 1 := by
  have hlt : ∀ p, s.screen p < 2 := by
    induction h with
    | start s0 => intro p; exact Nat.zero_lt_succ 1
    | cycle _ ih => exact emulateCycle_screen_bits _ ih
    | load prog _ ih => exact ih
  intro p
  have := hlt p
  omega

theorem reachable_screen_bits_witness :
    (emulateCycle (init_chip8 chip8Zero)).screen 0 = 0
      ∨ (emulateCycle (init_chip8 chip8Zero)).screen 0 = 1 :=
  reachable_screen_bits _ (Reachable.cycle (Reachable.start chip8Zero)) 0
